import Mathlib

/-!
Verification of the media filename identity resolution and rename-decision
engine of plex_tools (source: src/plex_arenamer1.7.8.py).

The Python source is shallowly embedded below.  Strings are modelled as
Lean `String`/`List Char` (ASCII scope: the repository's noise words, tags
and filenames are ASCII; `\w` is modelled as `[A-Za-z0-9_]`, `\s` as ASCII
whitespace, and case folding as ASCII `toLower`).  Python floats produced by
`difflib.SequenceMatcher.ratio() * 100` are modelled as exact rationals.
Every recursive scanner is written with explicit fuel (structural recursion)
so that concrete inputs evaluate by `decide`/`rfl`.
-/

namespace PlexTools

/-! ## Basic character and string helpers -/

/-- ASCII case folding, as used by `re.IGNORECASE` and `str.lower()` here. -/
def lowChar (c : Char) : Char := c.toLower

/-- Python `str.lower()` on the ASCII fragment. -/
def lowerStr (s : String) : String := String.mk (s.data.map lowChar)

/-- Word character for the regex `\b` boundary: `[A-Za-z0-9_]`. -/
def isWordChar (c : Char) : Bool := c.isAlphanum || c = '_'

/-- Python regex `\s` / `str.strip()` whitespace (ASCII fragment). -/
def isSpaceChar (c : Char) : Bool :=
  c = ' ' || c = '\t' || c = '\n' || c = '\x0d' || c = '\x0b' || c = '\x0c'

/-- Word-ness of a neighbouring position; `none` (string edge) is non-word. -/
def optWord : Option Char → Bool
  | none => false
  | some c => isWordChar c

/-- A `\b` boundary holds between two neighbouring positions iff exactly one
side is a word character. -/
def bdry (l r : Option Char) : Bool := optWord l != optWord r

/-- Numeric value of a list of decimal digits (as Python `int` on a digit
string). -/
def natOfDigits (l : List Char) : Nat :=
  l.foldl (fun n c => 10 * n + (c.toNat - '0'.toNat)) 0

/-- Match a literal character sequence at the head of a list, returning the
remainder on success. -/
def litPref : List Char → List Char → Option (List Char)
  | [], s => some s
  | _ :: _, [] => none
  | p :: ps, c :: cs => if p = c then litPref ps cs else none

/-- Case-insensitive variant of `litPref` (both sides folded with `lowChar`). -/
def litPrefCI : List Char → List Char → Bool
  | [], _ => true
  | _ :: _, [] => false
  | p :: ps, c :: cs => lowChar p = lowChar c && litPrefCI ps cs

/-- Does predicate `p` hold of some suffix of the list?  (Used to model
`re.search` of a literal-ish pattern: try every start position.) -/
def anySuffix (p : List Char → Bool) : List Char → Bool
  | [] => p []
  | l@(_ :: r) => p l || anySuffix p r

/-- Case-insensitive literal containment (`re.search` of an escaped literal
with `re.IGNORECASE`, ignoring boundaries). -/
def containsCI (pat : List Char) (l : List Char) : Bool :=
  anySuffix (fun t => litPrefCI pat t) l

/-- Python `str.strip()` from the left only. -/
def stripLeft (l : List Char) : List Char := l.dropWhile isSpaceChar

/-- Python `str.strip()`: drop leading and trailing whitespace. -/
def pyStrip (l : List Char) : List Char :=
  ((l.dropWhile isSpaceChar).reverse.dropWhile isSpaceChar).reverse

/-- One pass of `re.sub(r'\s+', ' ', name)`: every maximal whitespace run
becomes a single space.  The boolean records whether the previous character
was part of a whitespace run already emitted. -/
def collapseWsAux : Bool → List Char → List Char
  | _, [] => []
  | inRun, c :: r =>
    if isSpaceChar c then
      if inRun then collapseWsAux true r else ' ' :: collapseWsAux true r
    else c :: collapseWsAux false r

/-- `re.sub(r'\s+', ' ', name)`. -/
def collapseWs (l : List Char) : List Char := collapseWsAux false l

/-- Number of fields of Python `str.split()` (split on whitespace runs,
ignoring leading/trailing whitespace). -/
def wcAux : Bool → List Char → Nat
  | _, [] => 0
  | inW, c :: r =>
    if isSpaceChar c then wcAux false r
    else (if inW then 0 else 1) + wcAux true r

/-- `len(s.split())` for a Python string. -/
def pyWords (s : String) : Nat := wcAux false s.data

/-! ## Path helpers (`os.path`, POSIX flavour) -/

/-- `os.path.basename`: everything after the last `/`. -/
def basename (s : String) : String :=
  String.mk ((s.data.reverse.takeWhile (fun c => c ≠ '/')).reverse)

/-- `os.path.dirname`: everything up to and including the last `/`, with
trailing slashes stripped unless the head is all slashes. -/
def dirname (s : String) : String :=
  let l := s.data
  let head := (l.reverse.dropWhile (fun c => c ≠ '/')).reverse
  if head = [] then ""
  else if head.all (fun c => c = '/') then String.mk head
  else String.mk ((head.reverse.dropWhile (fun c => c = '/')).reverse)

/-- Two-argument `os.path.join` (POSIX). -/
def pathJoin (a b : String) : String :=
  if b.data.head? = some '/' then b
  else if a = "" || a.data.getLast? = some '/' then a ++ b
  else a ++ "/" ++ b

/-- Index (from the left) of the last occurrence of `c`, or `none`. -/
def rfindIdx (c : Char) (l : List Char) : Option Nat :=
  match l.reverse.findIdx? (fun d => d = c) with
  | none => none
  | some k => some (l.length - 1 - k)

/-- CPython `genericpath._splitext`: split at the last `.` provided it comes
after the last `/` and at least one character between them is not a dot
(so dotfiles like `.bashrc` keep their name). -/
def splitextIdx (l : List Char) : Option Nat :=
  let sepIdx : Int := match rfindIdx '/' l with | none => -1 | some i => (i : Int)
  let dotIdx : Int := match rfindIdx '.' l with | none => -1 | some i => (i : Int)
  if dotIdx > sepIdx then
    if ((List.range l.length).any fun k =>
        decide (sepIdx < (k : Int)) && decide ((k : Int) < dotIdx)
          && decide (l.getD k ' ' ≠ '.')) then
      some dotIdx.toNat
    else none
  else none

/-- `os.path.splitext(p)[0]`. -/
def splitextRoot (s : String) : String :=
  match splitextIdx s.data with
  | none => s
  | some i => String.mk (s.data.take i)

/-- `os.path.splitext(p)[1]`. -/
def splitextExt (s : String) : String :=
  match splitextIdx s.data with
  | none => ""
  | some i => String.mk (s.data.drop i)

/-! ## Year extraction (`extract_year_from_filename`)

The pattern `\b(19\d{2}|20\d{2}|21\d{2}|2200)\b` matches exactly the
four-digit numbers in `[1900, 2200]` delimited by `\b` on both sides. -/

/-- Is this four-character digit block a year accepted by the alternation
`19\d{2}|20\d{2}|21\d{2}|2200`? -/
def isYear4 (a b c d : Char) : Bool :=
  a.isDigit && b.isDigit && c.isDigit && d.isDigit &&
    (let n := natOfDigits [a, b, c, d]
     decide (1900 ≤ n) && decide (n ≤ 2200))

/-- Try to match the year pattern at the current position (`prev` is the
original character just before this position, for the leading `\b`). -/
def tryYearAt (prev : Option Char) : List Char → Option Nat
  | a :: b :: c :: d :: rest =>
    if isYear4 a b c d && !optWord prev && !optWord rest.head? then
      some (natOfDigits [a, b, c, d])
    else none
  | _ => none

/-- Leftmost search for the year pattern. -/
def extractYearAux (prev : Option Char) : List Char → Option Nat
  | [] => none
  | c :: rest =>
    match tryYearAt prev (c :: rest) with
    | some n => some n
    | none => extractYearAux (some c) rest

/-- `extract_year_from_filename`: first `\b(19\d{2}|20\d{2}|21\d{2}|2200)\b`
in the raw string, as an integer. -/
def extractYear (s : String) : Option Nat := extractYearAux none s.data

/-! ## The normalizer (`extract_basename`) -/

/-- Step 1 of a scan for `X.*?Y`-style groups: find the first closing
character, failing on a newline (regex `.` does not match `\n`).  Returns
(content before the close, remainder after the close). -/
def findClose (cl : Char) : List Char → Option (List Char × List Char)
  | [] => none
  | c :: r =>
    if c = cl then some ([], r)
    else if c = '\n' then none
    else match findClose cl r with
      | none => none
      | some (content, after) => some (c :: content, after)

/-- `re.sub(r'\[.*?\]', '', name)` (and the analogous parenthesis removal):
delete every lazily-matched delimited group, scanning left to right. -/
def removeDelim (op cl : Char) : Nat → List Char → List Char
  | 0, s => s
  | _ + 1, [] => []
  | fuel + 1, c :: rest =>
    if c = op then
      match findClose cl rest with
      | some (_, after) => removeDelim op cl fuel after
      | none => c :: removeDelim op cl fuel rest
    else c :: removeDelim op cl fuel rest

/-- Case-insensitive whole-word removal:
`re.sub(r'\b' + re.escape(word) + r'\b', '', name, flags=re.IGNORECASE)`.
`prev` is the character just before the scan position (word-ness is all
`\b` needs, and matched characters agree with the pattern up to case). -/
def subWordAux (w : List Char) : Nat → Option Char → List Char → List Char
  | 0, _, s => s
  | _ + 1, _, [] => []
  | fuel + 1, prev, c :: rest =>
    if litPrefCI w (c :: rest) && bdry prev w.head?
        && bdry w.getLast? (((c :: rest).drop w.length).head?) then
      subWordAux w fuel w.getLast? ((c :: rest).drop w.length)
    else c :: subWordAux w fuel (some c) rest

/-- Whole-word case-insensitive deletion of one configured noise word. -/
def subWord (w : String) (l : List Char) : List Char :=
  if w.data = [] then l else subWordAux w.data (l.length + 1) none l

/-- The placeholder text used for protected `(year)` groups:
`"___YEAR_PLACEHOLDER___" + str(index)`. -/
def placeholderChars (n : Nat) : List Char :=
  "___YEAR_PLACEHOLDER___".data ++ (toString n).data

/-- Does this parenthesis content fullmatch the year alternation? -/
def contentIsYear : List Char → Bool
  | [a, b, c, d] => isYear4 a b c d
  | _ => false

/-- `re.sub(r'\((.*?)\)', replace_year_in_paren, name)`: each lazily matched
group whose content is exactly a year becomes a fresh placeholder (recorded,
in insertion order, with its original `(year)` text); other groups are kept
verbatim and scanning resumes after them. -/
def parenYearAux : Nat → Nat → List Char → List Char × List (List Char × List Char)
  | 0, _, s => (s, [])
  | _ + 1, _, [] => ([], [])
  | fuel + 1, cnt, c :: rest =>
    if c = '(' then
      match findClose ')' rest with
      | some (content, after) =>
        if contentIsYear content then
          let ph := placeholderChars cnt
          let res := parenYearAux fuel (cnt + 1) after
          (ph ++ res.1, (ph, '(' :: (content ++ [')'])) :: res.2)
        else
          let res := parenYearAux fuel cnt after
          ('(' :: (content ++ [')'] ++ res.1), res.2)
      | none =>
        let res := parenYearAux fuel cnt rest
        ('(' :: res.1, res.2)
    else
      let res := parenYearAux fuel cnt rest
      (c :: res.1, res.2)

/-- `re.sub(r'(?<!\()\b(YEAR)\b(?!\))', '', name)`: delete bare years not
adjacent to parentheses.  `prev` is the original previous character (for
both the lookbehind and the left `\b`). -/
def removeBareYears : Nat → Option Char → List Char → List Char
  | 0, _, s => s
  | _ + 1, _, [] => []
  | fuel + 1, prev, c :: rest =>
    match c :: rest with
    | a :: b :: c2 :: d :: rest2 =>
      if isYear4 a b c2 d && prev ≠ some '(' && !optWord prev
          && !optWord rest2.head? && rest2.head? ≠ some ')' then
        removeBareYears fuel (some d) rest2
      else a :: removeBareYears fuel (some a) (b :: c2 :: d :: rest2)
    | _ => c :: removeBareYears fuel (some c) rest

/-- Python `str.replace(old, new)`: all non-overlapping occurrences, left to
right, replacement text not rescanned. -/
def replaceAll (old new : List Char) : Nat → List Char → List Char
  | 0, s => s
  | _ + 1, [] => []
  | fuel + 1, c :: rest =>
    match litPref old (c :: rest) with
    | some after => if old = [] then c :: rest else new ++ replaceAll old new fuel after
    | none => c :: replaceAll old new fuel rest

/-- Attempt `\s*\(YEAR\)\s*` at the current position; on success return the
remainder after the greedy trailing whitespace. -/
def tryParenYearPat (s : List Char) : Option (List Char) :=
  match s.dropWhile isSpaceChar with
  | '(' :: a :: b :: c :: d :: ')' :: r =>
    if isYear4 a b c d then some (r.dropWhile isSpaceChar) else none
  | _ => none

/-- `re.sub(r'\s*\((YEAR)\)\s*', ' ', name)`. -/
def removeParenYears : Nat → List Char → List Char
  | 0, s => s
  | _ + 1, [] => []
  | fuel + 1, c :: rest =>
    match tryParenYearPat (c :: rest) with
    | some rem => ' ' :: removeParenYears fuel rem
    | none => c :: removeParenYears fuel rest

/-- `name.replace('.', ' ')`. -/
def dotsToSpaces (l : List Char) : List Char :=
  l.map (fun c => if c = '.' then ' ' else c)

/-- `extract_basename(file_path)` with noise-word list `ws`
(`WORDS_TO_REMOVE`), following the v1.7.8 pipeline step by step. -/
def extractBasename (ws : List String) (fp : String) : String :=
  let bne := basename fp
  let n0 := (splitextRoot bne).data
  let n1 := removeDelim '[' ']' (n0.length + 1) n0
  let n2 := ws.foldl (fun s w => subWord w s) n1
  let pr := parenYearAux (n2.length + 1) 0 n2
  let n3 := pr.1
  let n4 := removeDelim '(' ')' (n3.length + 1) n3
  let n5 := pyStrip (removeBareYears (n4.length + 1) none n4)
  let n6 := pr.2.foldl (fun s q => replaceAll q.1 q.2 (s.length + 1) s) n5
  let n7 := pyStrip (removeParenYears (n6.length + 1) n6)
  let n8 := pyStrip (collapseWs (pyStrip (dotsToSpaces n7)))
  if n8 ≠ [] then String.mk n8 else splitextRoot bne

/-! ## Similarity scorer (`calculate_similarity`)

`SequenceMatcher(None, a, b).ratio() * 100`.  With `isjunk = None` the
junk set is empty, so the two junk-extension loops of
`find_longest_match` never fire and the `not isbjunk(...)` guards of the
non-junk extension loops are always true; they are specialised away below.
Autojunk remains: when `len(b) >= 200`, elements of `b` occurring more
than `len(b) // 100 + 1` times are dropped from `b2j` (so they cannot seed
a match, though extensions may run through them).  The float result is
modelled as an exact rational. -/

/-- Autojunk "popular" test on the second sequence. -/
def isPopular (b : List Char) (c : Char) : Bool :=
  decide (200 ≤ b.length) && decide (b.length / 100 + 1 < b.count c)

/-- `b2j.get(c, [])` restricted to the window `[blo, bhi)`: ascending
positions of `c` in `b`, absent entirely when `c` is popular. -/
def seedPositions (b : List Char) (blo bhi : Nat) (c : Char) : List Nat :=
  (List.range b.length).filter fun j =>
    decide (blo ≤ j) && decide (j < bhi) && decide (b.getD j ' ' = c)
      && !isPopular b c

/-- Inner loop of `find_longest_match` for row `i`: walk the seed positions
`js` (ascending), extend runs recorded in `j2len` (for row `i - 1`), build
the new `j2len` association, and update the best block on strict
improvement (`k > bestsize`). -/
def innerLoop (i : Nat) (j2len : List (Nat × Nat)) :
    List Nat → List (Nat × Nat) → Nat × Nat × Nat →
      List (Nat × Nat) × (Nat × Nat × Nat)
  | [], acc, best => (acc, best)
  | j :: js, acc, best =>
    let k := if j = 0 then 1 else (List.lookup (j - 1) j2len).getD 0 + 1
    let best' := if best.2.2 < k then (i + 1 - k, j + 1 - k, k) else best
    innerLoop i j2len js ((j, k) :: acc) best'

/-- Outer loop of `find_longest_match` over the rows `[alo, ahi)`. -/
def outerLoop (a b : List Char) (blo bhi : Nat) :
    List Nat → List (Nat × Nat) → Nat × Nat × Nat → Nat × Nat × Nat
  | [], _, best => best
  | i :: rows, j2len, best =>
    let res := innerLoop i j2len (seedPositions b blo bhi (a.getD i ' ')) [] best
    outerLoop a b blo bhi rows res.1 res.2

/-- Backward extension loop of `find_longest_match` (junk set empty). -/
def extendBack (a b : List Char) (alo blo : Nat) :
    Nat → Nat → Nat → Nat → Nat × Nat × Nat
  | 0, bi, bj, k => (bi, bj, k)
  | fuel + 1, bi, bj, k =>
    if alo < bi ∧ blo < bj ∧ a.getD (bi - 1) '?' = b.getD (bj - 1) '!' then
      extendBack a b alo blo fuel (bi - 1) (bj - 1) (k + 1)
    else (bi, bj, k)

/-- Forward extension loop of `find_longest_match` (junk set empty). -/
def extendFwd (a b : List Char) (ahi bhi : Nat) :
    Nat → Nat → Nat → Nat → Nat
  | 0, _, _, k => k
  | fuel + 1, bi, bj, k =>
    if bi + k < ahi ∧ bj + k < bhi ∧ a.getD (bi + k) '?' = b.getD (bj + k) '!' then
      extendFwd a b ahi bhi fuel bi bj (k + 1)
    else k

/-- `find_longest_match(alo, ahi, blo, bhi)`: best seeded block (earliest in
`a`, then earliest in `b`), then the two non-junk extension passes. -/
def findLongestMatch (a b : List Char) (alo ahi blo bhi : Nat) : Nat × Nat × Nat :=
  let best := outerLoop a b blo bhi (List.range' alo (ahi - alo)) [] (alo, blo, 0)
  let back := extendBack a b alo blo best.1 best.1 best.2.1 best.2.2
  let k := extendFwd a b ahi bhi ahi back.1 back.2.1 back.2.2
  (back.1, back.2.1, k)

/-- Total size of all matching blocks (the `sum(size for ...)` of
`ratio`), computed by the usual divide-and-conquer around each longest
match.  Each recursion level strictly shrinks the `a`-window, so
`a.length + 1` fuel is always enough. -/
def matchesTot (a b : List Char) : Nat → Nat → Nat → Nat → Nat → Nat
  | 0, _, _, _, _ => 0
  | fuel + 1, alo, ahi, blo, bhi =>
    let m := findLongestMatch a b alo ahi blo bhi
    if m.2.2 = 0 then 0
    else
      matchesTot a b fuel alo m.1 blo m.2.1 + m.2.2
        + matchesTot a b fuel (m.1 + m.2.2) ahi (m.2.1 + m.2.2) bhi

/-- `calculate_similarity(a, b) = SequenceMatcher(None, a, b).ratio() * 100`,
with `_calculate_ratio`'s empty-input convention (`1.0` when both empty).
The exact rational `2 * M / (len a + len b) * 100` is built with `mkRat`
(equal to the division, but kernel-computable). -/
def calcSim (sa sb : String) : ℚ :=
  let a := sa.data
  let b := sb.data
  let m := matchesTot a b (a.length + 1) 0 a.length 0 b.length
  if a.length + b.length = 0 then 100
  else mkRat (200 * m) (a.length + b.length)

/-! ## Identifier searches on the raw basename (`process_movie`)

The three `re.search` patterns are literal-plus-classes; `re.IGNORECASE`
on them is equivalent to scanning the lowercased string (the literals are
lowercase and `\d`, `\s` are case-closed), which is how they are modelled. -/

/-- Try `(?:tmdbid\s*=\s*|tmdb-)(\d+)` at one position of the lowercased
string, returning the captured digits. -/
def tryExplicitAt (l : List Char) : Option (List Char) :=
  let alt2 :=
    match litPref "tmdb-".data l with
    | some r =>
      let ds := r.takeWhile Char.isDigit
      if ds ≠ [] then some ds else none
    | none => none
  match litPref "tmdbid".data l with
  | some r1 =>
    match (r1.dropWhile isSpaceChar) with
    | '=' :: r3 =>
      let ds := (r3.dropWhile isSpaceChar).takeWhile Char.isDigit
      if ds ≠ [] then some ds else alt2
    | _ => alt2
  | none => alt2

/-- Leftmost search for the explicit tmdb-id pattern. -/
def searchExplicitAux : List Char → Option (List Char)
  | [] => none
  | c :: rest =>
    match tryExplicitAt (c :: rest) with
    | some ds => some ds
    | none => searchExplicitAux rest

/-- `re.search(r'(?:tmdbid\s*=\s*|tmdb-)(\d+)', fname, re.IGNORECASE)`,
returning the captured digit group. -/
def searchExplicitTmdb (s : String) : Option String :=
  (searchExplicitAux (lowerStr s).data).map String.mk

/-- `re.search(r'tmdbid|tmdb-', fname, re.IGNORECASE)` as a boolean. -/
def presenceTmdb (s : String) : Bool :=
  anySuffix (fun t => (litPref "tmdbid".data t).isSome
    || (litPref "tmdb-".data t).isSome) (lowerStr s).data

/-- Try a standard-tag pattern `PRE\d+\x7d` at one position (the whole
pattern is `pre` followed by one or more digits and a closing brace). -/
def tryTagAt (pre : List Char) (l : List Char) : Bool :=
  match litPref pre l with
  | some r =>
    let ds := r.takeWhile Char.isDigit
    ds ≠ [] && (r.drop ds.length).head? = some '\x7d'
  | none => false

/-- `re.search(r"\{imdb-tt\d+\}", fname.lower())` as a boolean. -/
def tagImdb (s : String) : Bool :=
  anySuffix (tryTagAt "\x7bimdb-tt".data) (lowerStr s).data

/-- `re.search(r"\{tmdb-\d+\}", fname.lower())` as a boolean. -/
def tagTmdb (s : String) : Bool :=
  anySuffix (tryTagAt "\x7btmdb-".data) (lowerStr s).data

/-! ## Decision pipeline (`process_movie` and the `list_movie_files` core) -/

/-- Metadata for one item, as obtained from the Plex XML (`title`/`year`
carry the `'Desconocido'` defaults when the attributes are missing). -/
structure Meta where
  imdb : Option String
  tmdb : Option String
  title : String
  year : String
deriving DecidableEq, Repr

/-- Python truthiness-plus-placeholder test
`x and x.lower() not in ["na", "n/a"]` on an optional identifier. -/
def validId : Option String → Bool
  | none => false
  | some s => s ≠ "" && lowerStr s ≠ "na" && lowerStr s ≠ "n/a"

/-- Result of `process_movie` (only the fields the decision consumes). -/
inductive PMOut
  | skipped (reason : String) (base : String)
  | direct (imdb tmdb : Option String) (title year : String) (base : String)
  | sim (imdb tmdb : Option String) (title year : String) (base : String) (score : ℚ)
deriving DecidableEq, Repr

/-- `process_movie(video, ...)` as a pure function of the on-disk path and
the (optionally fetched) metadata.  `meta = none` models a failed
metadata request. -/
def processMovie (ws : List String) (fp : String) (meta : Option Meta) : PMOut :=
  let fname := basename fp
  let explicitId := searchExplicitTmdb fname
  let presence := explicitId.isNone && presenceTmdb fname
  if explicitId.isSome || presence then
    match meta with
    | none => .skipped "METADATA_ERROR_TMDB_DIRECT" (extractBasename ws fp)
    | some m =>
      let finalTmdb := match explicitId with
        | some d => some d
        | none => m.tmdb
      if !validId m.imdb && !validId finalTmdb then
        .skipped "NO_ID_FOR_TMDB_DIRECT_RENAME" (extractBasename ws fp)
      else .direct m.imdb finalTmdb m.title m.year (extractBasename ws fp)
  else
    let base := extractBasename ws fp
    if tagImdb fname || tagTmdb fname then .skipped "ALREADY_FORMATTED_ID_TAG" base
    else
      match meta with
      | none => .skipped "METADATA_ERROR" base
      | some m =>
        if !validId m.imdb && !validId m.tmdb then .skipped "NO_ID_FOUND" base
        else .sim m.imdb m.tmdb m.title m.year base
          (calcSim (lowerStr base) (lowerStr m.title))

/-- `int(year) if year and year.isdigit() else None`. -/
def parseYearStr (s : String) : Option Nat :=
  if s ≠ "" ∧ s.data.all Char.isDigit then some (natOfDigits s.data) else none

/-- The `year_match` computation of `list_movie_files` (lines 370-373):
`False` unless both values are truthy (`None` and `0` are falsy in
Python), else `abs(diff) <= YEAR_DIFF_AUTO`. -/
def yearMatchB (fy my : Option Nat) (tol : ℤ) : Bool :=
  match fy, my with
  | some a, some b =>
    if a ≠ 0 ∧ b ≠ 0 then decide ((((a : ℤ) - (b : ℤ)).natAbs : ℤ) ≤ tol)
    else false
  | _, _ => false

/-- The `id_for_filename_tag` selection (imdb preferred, tmdb fallback). -/
def mkIdTag (imdb tmdb : Option String) : Option String :=
  if validId imdb then some ("\x7bimdb-" ++ imdb.getD "" ++ "\x7d")
  else if validId tmdb then some ("\x7btmdb-" ++ tmdb.getD "" ++ "\x7d")
  else none

/-- The decision a `process_movie` result leads to in `list_movie_files`. -/
inductive Action
  | autoRename
  | askConfirm
  | skipped (reason : String)
deriving DecidableEq, Repr

/-- Shared tail of the decision (proposal, `auto_rename_triggered`, ask,
skip).  For the tmdb-direct path `similarity_value` is `0` and the word
counts are never consulted (`auto_rename_triggered` is set directly). -/
def decideCore (simAuto simAsk yearTol : ℤ) (fp : String) (direct : Bool)
    (q : ℚ) (imdb tmdb : Option String) (title year base : String) : Action :=
  let fy := extractYear (basename fp)
  let my := parseYearStr year
  let ym := yearMatchB fy my yearTol
  match mkIdTag imdb tmdb with
  | none => .skipped "NO_VALID_ID_TAG"
  | some _ =>
    let trig :=
      if direct then true
      else if q ≥ (simAuto : ℚ) ∧ ym = true then
        if 2 ≤ pyWords title then true
        else if pyWords title = 1 ∧ pyWords base = 1 then true
        else false
      else false
    if trig then .autoRename
    else if q > (simAsk : ℚ) ∧ direct = false then .askConfirm
    else .skipped "INSUFFICIENT_SIMILARITY"

/-- The per-item decision core of `list_movie_files` (lines 346-404),
with the `continue`-paths represented as `skipped` reason codes. -/
def listDecision (simAuto simAsk yearTol : ℤ) (fp : String) (pm : PMOut) : Action :=
  match pm with
  | .skipped r _ => .skipped r
  | .direct imdb tmdb title year base =>
    decideCore simAuto simAsk yearTol fp true 0 imdb tmdb title year base
  | .sim imdb tmdb title year base q =>
    decideCore simAuto simAsk yearTol fp false q imdb tmdb title year base

/-- The whole per-item pipeline: `process_movie` followed by the decision
core of `list_movie_files`. -/
def engine (ws : List String) (simAuto simAsk yearTol : ℤ)
    (fp : String) (meta : Option Meta) : Action :=
  listDecision simAuto simAsk yearTol fp (processMovie ws fp meta)

/-! ## Rename executor (`rename_file`, `log_rename`)

The filesystem is modelled as the list of existing paths plus a
case-insensitivity flag (`ci = true`: a case-insensitive backend, where
`os.path.exists`, `os.remove` and renames resolve names up to ASCII case).
Each `os` call may be made to raise via the `fault` oracle (a faulting call
leaves the filesystem unchanged); the `answer` character models the
overwrite prompt reply (`'n'` declines, anything else is `'s'`).
`rename_file` returning `True` maps to `renamed`, returning `False` to
`notRenamed`; `raised` models the one uncaught spot: the restore rename
inside the `except` block itself raising. -/

/-- The operating-system calls `rename_file` performs, as fault points. -/
inductive FaultSite
  | removeTemp
  | rename1
  | rename2
  | restore
  | replace
deriving DecidableEq, Repr

/-- Filesystem (existing paths) plus the append-only audit log contents. -/
structure RState where
  fs : List String
  log : List String
deriving DecidableEq, Repr

/-- Path-name equivalence used by the modelled filesystem. -/
def fsMatch (ci : Bool) (p q : String) : Bool :=
  if ci then decide (lowerStr p = lowerStr q) else decide (p = q)

/-- `os.path.exists`. -/
def fsExists (ci : Bool) (fs : List String) (p : String) : Bool :=
  fs.any (fun q => fsMatch ci p q)

/-- `os.remove`. -/
def fsRemove (ci : Bool) (fs : List String) (p : String) : List String :=
  fs.filter (fun q => !fsMatch ci p q)

/-- `os.rename` / `os.replace`: the source entry disappears, the
destination (with its exact new spelling) appears. -/
def fsMove (ci : Bool) (fs : List String) (src dst : String) : List String :=
  dst :: fsRemove ci (fsRemove ci fs src) dst

/-- `log_rename`: the one formatted line appended to `rename.log`. -/
def logEntry (now old new : String) : String :=
  "[" ++ now ++ "] Renombrado: " ++ old ++ " -> " ++ new ++ "\n"

/-- Outcome of one `rename_file` call. -/
inductive RenResult
  | renamed
  | notRenamed
  | raised
deriving DecidableEq, Repr

/-- The destination path `rename_file` builds:
`os.path.join(os.path.dirname(fp), new_name + os.path.splitext(fp)[1])`. -/
def renameTarget (fp newName : String) : String :=
  pathJoin (dirname fp) (newName ++ splitextExt fp)

/-- The `except` handler of the case-only branch: if the temporary exists
and the original name does not, rename the temporary back (that restore
rename itself is uncaught and may raise). -/
def caseHandler (ci : Bool) (fault : FaultSite → Bool) (temp fp : String)
    (s : RState) : RenResult × RState :=
  if fsExists ci s.fs temp && !fsExists ci s.fs fp then
    if fault .restore then (RenResult.raised, s)
    else (RenResult.notRenamed, { s with fs := fsMove ci s.fs temp fp })
  else (RenResult.notRenamed, s)

/-- Second rename of the case-only branch (`os.rename(temp, new_path)`),
followed by the success log and return. -/
def caseStep2 (ci : Bool) (fault : FaultSite → Bool) (temp newPath now fp : String)
    (s : RState) : RenResult × RState :=
  if fault .rename2 then caseHandler ci fault temp fp s
  else
    (RenResult.renamed,
      { fs := fsMove ci s.fs temp newPath,
        log := s.log ++ [logEntry now fp newPath] })

/-- First rename of the case-only branch (`os.rename(file_path, temp)`). -/
def caseStep1 (ci : Bool) (fault : FaultSite → Bool) (temp newPath now fp : String)
    (s : RState) : RenResult × RState :=
  if fault .rename1 then caseHandler ci fault temp fp s
  else caseStep2 ci fault temp newPath now fp { s with fs := fsMove ci s.fs fp temp }

/-- The whole case-only (`try`) block: optional removal of a stale
temporary, then the two-step rename. -/
def caseOnlyRename (ci : Bool) (fault : FaultSite → Bool) (now fp newPath : String)
    (st : RState) : RenResult × RState :=
  let temp := newPath ++ ".renaming_temp"
  if fsExists ci st.fs temp then
    if fault .removeTemp then caseHandler ci fault temp fp st
    else caseStep1 ci fault temp newPath now fp { st with fs := fsRemove ci st.fs temp }
  else caseStep1 ci fault temp newPath now fp st

/-- The final `os.replace` with its success log, or `False` on error. -/
def replacePath (ci : Bool) (fault : FaultSite → Bool) (now fp newPath : String)
    (st : RState) : RenResult × RState :=
  if fault .replace then (RenResult.notRenamed, st)
  else
    (RenResult.renamed,
      { fs := fsMove ci st.fs fp newPath,
        log := st.log ++ [logEntry now fp newPath] })

/-- `rename_file(file_path, new_name)`, step for step. -/
def renameFile (ci : Bool) (fault : FaultSite → Bool) (answer : Char)
    (now fp newName : String) (st : RState) : RenResult × RState :=
  let newPath := renameTarget fp newName
  if fp = newPath then (.notRenamed, st)
  else if fsExists ci st.fs newPath then
    if lowerStr fp = lowerStr newPath ∧ fp ≠ newPath then
      caseOnlyRename ci fault now fp newPath st
    else if answer = 'n' then (.notRenamed, st)
    else replacePath ci fault now fp newPath st
  else replacePath ci fault now fp newPath st

/-! ## Support definitions for the theorems -/

/-- A character that none of the normalizer's removal stages can touch:
not a path or extension separator, bracket, parenthesis, or digit. -/
def plainChar (c : Char) : Bool :=
  !(c = '/' || c = '.' || c = '[' || c = ']' || c = '(' || c = ')' || c.isDigit)

/-- Window bounds maintained for a candidate block of
`find_longest_match`: the block `(bi, bj, k)` lies inside
`[alo, ahi) × [blo, bhi)`. -/
def bestOK (alo ahi blo bhi : Nat) (best : Nat × Nat × Nat) : Prop :=
  alo ≤ best.1 ∧ best.1 + best.2.2 ≤ ahi ∧ blo ≤ best.2.1 ∧ best.2.1 + best.2.2 ≤ bhi

/-- Invariant of the `j2len` association at the start of row `i`: every
recorded run ends in row `i - 1`, starts no earlier than `alo`/`blo`, and
stays inside the `b` window. -/
def j2lenOK (alo blo bhi i : Nat) (j2len : List (Nat × Nat)) : Prop :=
  ∀ p ∈ j2len, 1 ≤ p.2 ∧ p.2 + alo ≤ i ∧ blo ≤ p.1 ∧ p.1 < bhi ∧ p.2 + blo ≤ p.1 + 1

/-! ## Supporting lemmas: the year extractor only produces years in range -/

theorem isYear4_range (a b c d : Char) (h : isYear4 a b c d = true) :
    1900 ≤ natOfDigits [a, b, c, d] ∧ natOfDigits [a, b, c, d] ≤ 2200 := by
  simp only [isYear4, Bool.and_eq_true, decide_eq_true_eq] at h
  exact h.2

theorem tryYearAt_range (prev : Option Char) (l : List Char) (n : Nat)
    (h : tryYearAt prev l = some n) : 1900 ≤ n ∧ n ≤ 2200 := by
  unfold tryYearAt at h
  split at h
  · split at h
    · rename_i a b c d rest hcond
      simp only [Bool.and_eq_true] at hcond
      obtain rfl : natOfDigits [a, b, c, d] = n := Option.some.inj h
      exact isYear4_range a b c d hcond.1.1
    · exact absurd h (by simp)
  · exact absurd h (by simp)

theorem extractYearAux_range (l : List Char) :
    ∀ prev n, extractYearAux prev l = some n → 1900 ≤ n ∧ n ≤ 2200 := by
  induction l with
  | nil => intro prev n h; simp [extractYearAux] at h
  | cons c rest ih =>
    intro prev n h
    unfold extractYearAux at h
    cases htry : tryYearAt prev (c :: rest) with
    | some m =>
      rw [htry] at h
      obtain rfl : m = n := Option.some.inj h
      exact tryYearAt_range prev (c :: rest) _ htry
    | none =>
      rw [htry] at h
      exact ih (some c) n h

theorem extractYear_range (s : String) (n : Nat) (h : extractYear s = some n) :
    1900 ≤ n ∧ n ≤ 2200 :=
  extractYearAux_range s.data none n h

/-! ## C3: year matching -/

/-- C3 (amended theorem): if either the year extracted from the raw
filename or the parsed metadata year is absent, `year_match` is false;
when both are present and the metadata year is nonzero, `year_match`
holds iff the absolute difference is at most the tolerance.  (The
filename-side year is automatically nonzero: extracted years lie in
`[1900, 2200]`.) -/
theorem yearMatch_rule (fname ys : String) (tol : ℤ) :
    ((extractYear fname = none ∨ parseYearStr ys = none) →
      yearMatchB (extractYear fname) (parseYearStr ys) tol = false) ∧
    (∀ a b, extractYear fname = some a → parseYearStr ys = some b → 0 < b →
      (yearMatchB (extractYear fname) (parseYearStr ys) tol = true ↔
        ((((a : ℤ) - (b : ℤ)).natAbs : ℤ) ≤ tol))) := by
  constructor
  · intro h
    rcases h with h | h <;> rw [h]
    · simp [yearMatchB]
    · cases extractYear fname <;> simp [yearMatchB]
  · intro a b ha hb hbpos
    have hrange := extractYear_range fname a ha
    rw [ha, hb]
    show (if a ≠ 0 ∧ b ≠ 0 then decide ((((a : ℤ) - (b : ℤ)).natAbs : ℤ) ≤ tol)
        else false) = true ↔ _
    rw [if_pos ⟨by omega, by omega⟩]
    simp

/-- C3 (counterexample to the claim as stated): both years are present
(`1900` from the filename, `0` parsed from the metadata string `"0"`),
their absolute difference is within the tolerance `1900`, yet
`year_match` is false — Python's truthiness test treats the integer `0`
like an absent year. -/
theorem yearMatch_zero_cex :
    extractYear "Movie.1900.mkv" = some 1900 ∧
    parseYearStr "0" = some 0 ∧
    ((((1900 : ℤ) - (0 : ℤ)).natAbs : ℤ) ≤ (1900 : ℤ)) ∧
    yearMatchB (extractYear "Movie.1900.mkv") (parseYearStr "0") 1900 = false := by
  decide

/-- Witness for `yearMatch_rule` at concrete inputs. -/
theorem yearMatch_rule_witness :
    extractYear "m.1999.mkv" = some 1999 ∧ parseYearStr "2000" = some 2000 ∧
      (yearMatchB (extractYear "m.1999.mkv") (parseYearStr "2000") 1 = true ↔
        ((((1999 : ℤ) - (2000 : ℤ)).natAbs : ℤ) ≤ (1 : ℤ))) :=
  ⟨by decide, by decide,
    (yearMatch_rule "m.1999.mkv" "2000" 1).2 1999 2000 (by decide) (by decide)
      (by decide)⟩

/-! ## C5: scenario A -/

/-- C5 (counterexample): with noise words `1080p`, `bluray`, `x264`, the
normalizer does not return `"Movie Name"` for scenario A's filename. -/
theorem scenarioA_cex :
    extractBasename ["1080p", "bluray", "x264"]
      "Movie.Name.2019.1080p.BluRay.x264-GROUP.mkv" ≠ "Movie Name" := by
  decide

/-- C5 (amended theorem): the normalizer returns `"Movie Name -GROUP"`
(the hyphenated release-group suffix survives because `GROUP` is not a
noise word), and the year extractor returns 2019. -/
theorem scenarioA_amended :
    extractBasename ["1080p", "bluray", "x264"]
      "Movie.Name.2019.1080p.BluRay.x264-GROUP.mkv" = "Movie Name -GROUP" ∧
    extractYear "Movie.Name.2019.1080p.BluRay.x264-GROUP.mkv" = some 2019 := by
  decide

/-! ## C1: standard identifier tags -/

/-- C1 (counterexample): a raw filename carrying the standard tag
`(tmdb-123)` (braces in the real text) is not skipped: the explicit
tmdb-id regex matches first and the engine auto-renames it.  This refutes
"SKIP with reason already-tagged has first precedence". -/
theorem alreadyTagged_cex :
    engine [] 100 85 1 "Movie \x7btmdb-123\x7d.mkv"
      (some ⟨none, none, "T", "2000"⟩) = .autoRename := by
  decide

/-! ## Supporting lemmas: literal searches -/

theorem litPref_eq (p : List Char) :
    ∀ l r, litPref p l = some r → l = p ++ r := by
  induction p with
  | nil =>
    intro l r h
    simp only [litPref, Option.some.injEq] at h
    simp [h]
  | cons x xs ih =>
    intro l r h
    cases l with
    | nil => simp [litPref] at h
    | cons c cs =>
      unfold litPref at h
      split at h
      · rename_i hx
        have := ih cs r h
        simp [← hx, this]
      · exact absurd h (by simp)

theorem tryTag_tmdb_shape (l : List Char)
    (h : tryTagAt "\x7btmdb-".data l = true) :
    ∃ r, l = '\x7b' :: 't' :: 'm' :: 'd' :: 'b' :: '-' :: r ∧
      r.takeWhile Char.isDigit ≠ [] := by
  unfold tryTagAt at h
  cases hp : litPref "\x7btmdb-".data l with
  | none => rw [hp] at h; simp at h
  | some r =>
    rw [hp] at h
    have hl := litPref_eq _ l r hp
    simp only [Bool.and_eq_true, decide_eq_true_eq] at h
    exact ⟨r, by simpa using hl, h.1⟩

theorem searchAux_mono (c : Char) (rest : List Char)
    (h : (searchExplicitAux rest).isSome = true) :
    (searchExplicitAux (c :: rest)).isSome = true := by
  unfold searchExplicitAux
  cases htry : tryExplicitAt (c :: rest) <;> simp [htry, h]

theorem tryExplicitAt_tmdbdash (r : List Char)
    (hd : r.takeWhile Char.isDigit ≠ []) :
    (tryExplicitAt ('t' :: 'm' :: 'd' :: 'b' :: '-' :: r)).isSome = true := by
  have e1 : "tmdbid".data = ['t', 'm', 'd', 'b', 'i', 'd'] := rfl
  have e2 : "tmdb-".data = ['t', 'm', 'd', 'b', '-'] := rfl
  unfold tryExplicitAt
  rw [e1, e2]
  simp [litPref, hd]

theorem searchAux_of_tmdbTag : ∀ l : List Char,
    anySuffix (tryTagAt "\x7btmdb-".data) l = true →
    (searchExplicitAux l).isSome = true := by
  intro l
  induction l with
  | nil =>
    intro h
    rw [anySuffix] at h
    exact absurd h (by decide)
  | cons c rest ih =>
    intro h
    rw [anySuffix, Bool.or_eq_true] at h
    cases h with
    | inl htag =>
      obtain ⟨r, hshape, hds⟩ := tryTag_tmdb_shape _ htag
      have hrest : rest = 't' :: 'm' :: 'd' :: 'b' :: '-' :: r := by
        injection hshape with h1 h2
      apply searchAux_mono
      rw [hrest]
      unfold searchExplicitAux
      have hs := tryExplicitAt_tmdbdash r hds
      cases htry : tryExplicitAt ('t' :: 'm' :: 'd' :: 'b' :: '-' :: r) with
      | none => rw [htry] at hs; simp at hs
      | some ds => simp
    | inr hrec => exact searchAux_mono c rest (ih hrec)

/-! ## C1: formatted-tag precedence (amended) -/

/-- C1 (amended theorem).  Part 1: a filename whose basename carries a
standard imdb tag and no tmdb marker at all is skipped with reason
`ALREADY_FORMATTED_ID_TAG`, regardless of metadata, thresholds or
similarity.  Part 2: a standard tmdb tag `(tmdb-NNN)` (braces in the real
text) always matches the earlier explicit tmdb-id rule, so such files are
routed to the unconditional direct-rename path instead of being skipped. -/
theorem alreadyTagged_rule :
    (∀ (ws : List String) (sa sk yt : ℤ) (fp : String) (meta : Option Meta),
      tagImdb (basename fp) = true →
      searchExplicitTmdb (basename fp) = none →
      presenceTmdb (basename fp) = false →
      engine ws sa sk yt fp meta = .skipped "ALREADY_FORMATTED_ID_TAG") ∧
    (∀ s : String, tagTmdb s = true → (searchExplicitTmdb s).isSome = true) := by
  constructor
  · intro ws sa sk yt fp meta htag hexp hpres
    simp [engine, processMovie, listDecision, hexp, hpres, htag]
  · intro s htag
    unfold tagTmdb at htag
    unfold searchExplicitTmdb
    have h' := searchAux_of_tmdbTag _ htag
    cases hx : searchExplicitAux (lowerStr s).data with
    | none => rw [hx] at h'; simp at h'
    | some ds => simp

/-- Witness for `alreadyTagged_rule` at concrete inputs. -/
theorem alreadyTagged_rule_witness :
    engine [] 100 85 1 "x \x7bimdb-tt123\x7d.mkv"
        (some ⟨some "tt1", none, "T", "2000"⟩)
        = .skipped "ALREADY_FORMATTED_ID_TAG" ∧
      (searchExplicitTmdb "\x7btmdb-5\x7d").isSome = true :=
  ⟨alreadyTagged_rule.1 [] 100 85 1 "x \x7bimdb-tt123\x7d.mkv"
      (some ⟨some "tt1", none, "T", "2000"⟩) (by decide) (by decide) (by decide),
    alreadyTagged_rule.2 "\x7btmdb-5\x7d" (by decide)⟩

/-! ## C9: bare tmdb markers force the direct-rename path -/

/-- C9: if the basename contains the marker text `tmdbid` or `tmdb-`
(case-insensitively) with no explicit numeric id, and the server metadata
carries a usable identifier, the engine auto-renames unconditionally —
for every noise-word list, every threshold pair and every year tolerance,
i.e. similarity and year checks are bypassed. -/
theorem tmdbMarker_direct (ws : List String) (sa sk yt : ℤ) (fp : String)
    (m : Meta)
    (hexp : searchExplicitTmdb (basename fp) = none)
    (hpres : presenceTmdb (basename fp) = true)
    (hid : validId m.imdb = true ∨ validId m.tmdb = true) :
    engine ws sa sk yt fp (some m) = .autoRename := by
  rcases hid with h | h
  · by_cases h2 : validId m.tmdb = true <;>
      simp [engine, processMovie, listDecision, decideCore, mkIdTag, hexp,
        hpres, h, h2]
  · by_cases h1 : validId m.imdb = true <;>
      simp [engine, processMovie, listDecision, decideCore, mkIdTag, hexp,
        hpres, h, h1]

/-- Witness for `tmdbMarker_direct` at concrete inputs. -/
theorem tmdbMarker_direct_witness :
    engine [] 100 85 1 "Movie tmdbid.mkv" (some ⟨none, some "55", "T", "x"⟩)
      = .autoRename :=
  tmdbMarker_direct [] 100 85 1 "Movie tmdbid.mkv" ⟨none, some "55", "T", "x"⟩
    (by decide) (by decide) (Or.inr (by decide))

/-! ## C2: threshold decision rules on the similarity path -/

theorem processMovie_sim_valid (ws : List String) (fp : String)
    (meta : Option Meta) (i t : Option String) (ti yr base : String) (q : ℚ)
    (h : processMovie ws fp meta = .sim i t ti yr base q) :
    validId i = true ∨ validId t = true := by
  simp only [processMovie] at h
  repeat' split at h
  all_goals simp_all
  rename_i hvt
  by_cases hv : validId i = true
  · exact Or.inl hv
  · exact Or.inr (hvt (by simpa using hv))

/-- C2: for every item on the similarity path (`process_movie` returned a
score), the decision is AUTO_RENAME iff
`score ≥ auto_threshold ∧ year_match ∧ (canonical title has ≥ 2 words, or
both it and the normalized candidate have exactly one word)`; otherwise
ASK_CONFIRM iff `score > ask_threshold`; otherwise SKIP with reason
"insufficient similarity". -/
theorem similarityDecision_rule (ws : List String) (sa sk yt : ℤ)
    (fp : String) (meta : Option Meta) (i t : Option String)
    (ti yr base : String) (q : ℚ)
    (h : processMovie ws fp meta = .sim i t ti yr base q) :
    (engine ws sa sk yt fp meta = .autoRename ↔
      (((sa : ℤ) : ℚ) ≤ q ∧
        yearMatchB (extractYear (basename fp)) (parseYearStr yr) yt = true ∧
        (2 ≤ pyWords ti ∨ (pyWords ti = 1 ∧ pyWords base = 1)))) ∧
    (engine ws sa sk yt fp meta = .askConfirm ↔
      (¬ (((sa : ℤ) : ℚ) ≤ q ∧
          yearMatchB (extractYear (basename fp)) (parseYearStr yr) yt = true ∧
          (2 ≤ pyWords ti ∨ (pyWords ti = 1 ∧ pyWords base = 1))) ∧
        ((sk : ℤ) : ℚ) < q)) ∧
    (engine ws sa sk yt fp meta = .skipped "INSUFFICIENT_SIMILARITY" ↔
      (¬ (((sa : ℤ) : ℚ) ≤ q ∧
          yearMatchB (extractYear (basename fp)) (parseYearStr yr) yt = true ∧
          (2 ≤ pyWords ti ∨ (pyWords ti = 1 ∧ pyWords base = 1))) ∧
        ¬ ((sk : ℤ) : ℚ) < q)) := by
  have hval := processMovie_sim_valid ws fp meta i t ti yr base q h
  obtain ⟨x, hx⟩ : ∃ x, mkIdTag i t = some x := by
    by_cases h1 : validId i = true
    · exact ⟨"\x7bimdb-" ++ i.getD "" ++ "\x7d", by simp [mkIdTag, h1]⟩
    · rcases hval with hv | hv
      · exact absurd hv h1
      · exact ⟨"\x7btmdb-" ++ t.getD "" ++ "\x7d", by simp [mkIdTag, h1, hv]⟩
  unfold engine
  rw [h]
  have hld : listDecision sa sk yt fp (PMOut.sim i t ti yr base q)
      = decideCore sa sk yt fp false q i t ti yr base := rfl
  rw [hld]
  unfold decideCore
  rw [hx]
  by_cases hA : (((sa : ℤ) : ℚ) ≤ q ∧
      yearMatchB (extractYear (basename fp)) (parseYearStr yr) yt = true)
  · by_cases hW1 : 2 ≤ pyWords ti
    · simp [hA.1, hA.2, hW1]
    · by_cases hW2 : (pyWords ti = 1 ∧ pyWords base = 1)
      · simp [hA.1, hA.2, hW1, hW2]
      · by_cases hq : ((sk : ℤ) : ℚ) < q <;>
          simp [hA.1, hA.2, hW1, hW2, hq]
  · by_cases hq : ((sk : ℤ) : ℚ) < q <;> simp [hA, hq] <;>
      exact fun ha hb => absurd ⟨ha, hb⟩ hA

/-- Witness for `similarityDecision_rule` at concrete inputs
(scenario B: exact title match, matching year, thresholds 100/85). -/
theorem similarityDecision_rule_witness :
    processMovie [] "Some.Movie.2019.mkv"
        (some ⟨some "tt1", none, "Some Movie", "2019"⟩)
        = .sim (some "tt1") none "Some Movie" "2019" "Some Movie" 100 ∧
      (engine [] 100 85 1 "Some.Movie.2019.mkv"
          (some ⟨some "tt1", none, "Some Movie", "2019"⟩) = .autoRename ↔
        (((100 : ℤ) : ℚ) ≤ 100 ∧
          yearMatchB (extractYear (basename "Some.Movie.2019.mkv"))
            (parseYearStr "2019") 1 = true ∧
          (2 ≤ pyWords "Some Movie" ∨
            (pyWords "Some Movie" = 1 ∧ pyWords "Some Movie" = 1)))) :=
  ⟨by decide,
    (similarityDecision_rule [] 100 85 1 "Some.Movie.2019.mkv"
      (some ⟨some "tt1", none, "Some Movie", "2019"⟩) (some "tt1") none
      "Some Movie" "2019" "Some Movie" 100 (by decide)).1⟩

/-! ## C6: similarity scorer -/

theorem seedPositions_mem (b : List Char) (blo bhi : Nat) (c : Char) (j : Nat)
    (h : j ∈ seedPositions b blo bhi c) : blo ≤ j ∧ j < bhi := by
  simp only [seedPositions, List.mem_filter, Bool.and_eq_true, decide_eq_true_eq] at h
  exact ⟨h.2.1.1.1, h.2.1.1.2⟩

theorem lookup_mem : ∀ (l : List (Nat × Nat)) (a v : Nat),
    List.lookup a l = some v → (a, v) ∈ l := by
  intro l
  induction l with
  | nil => intro a v h; simp [List.lookup] at h
  | cons p l ih =>
    intro a v h
    obtain ⟨k, b⟩ := p
    rw [List.lookup] at h
    split at h
    · rename_i heq
      obtain rfl := Option.some.inj h
      have hk : a = k := by simpa using heq
      subst hk
      exact List.mem_cons_self _ _
    · exact List.mem_cons_of_mem _ (ih a v h)

theorem innerLoop_inv (alo blo ahi bhi i : Nat) (hi1 : alo ≤ i) (hi2 : i < ahi)
    (j2len : List (Nat × Nat)) (hj : j2lenOK alo blo bhi i j2len) :
    ∀ (js : List Nat) (acc : List (Nat × Nat)) (best : Nat × Nat × Nat),
      (∀ j ∈ js, blo ≤ j ∧ j < bhi) →
      j2lenOK alo blo bhi (i + 1) acc →
      bestOK alo ahi blo bhi best →
      j2lenOK alo blo bhi (i + 1) (innerLoop i j2len js acc best).1 ∧
        bestOK alo ahi blo bhi (innerLoop i j2len js acc best).2 := by
  intro js
  induction js with
  | nil =>
    intro acc best hjs hacc hbest
    exact ⟨hacc, hbest⟩
  | cons j js ih =>
    intro acc best hjs hacc hbest
    have hj0 := hjs j (List.mem_cons_self j js)
    simp only [innerLoop]
    have hkb : 1 ≤ (if j = 0 then 1 else (List.lookup (j - 1) j2len).getD 0 + 1) ∧
        (if j = 0 then 1 else (List.lookup (j - 1) j2len).getD 0 + 1) + alo ≤ i + 1 ∧
        (if j = 0 then 1 else (List.lookup (j - 1) j2len).getD 0 + 1) + blo ≤ j + 1 := by
      split
      · omega
      · rename_i hjne
        cases hlk : List.lookup (j - 1) j2len with
        | none => simp only [Option.getD_none]; omega
        | some v =>
          have hmem := hj _ (lookup_mem j2len (j - 1) v hlk)
          simp only [Option.getD_some]
          omega
    generalize hgk : (if j = 0 then 1 else (List.lookup (j - 1) j2len).getD 0 + 1) = k at hkb ⊢
    apply ih
    · intro j' hj'
      exact hjs j' (List.mem_cons_of_mem j hj')
    · intro p hp
      rcases List.mem_cons.mp hp with rfl | hp
      · exact ⟨hkb.1, hkb.2.1, hj0.1, hj0.2, hkb.2.2⟩
      · exact hacc p hp
    · split
      · rename_i hlt
        show alo ≤ i + 1 - k ∧ (i + 1 - k) + k ≤ ahi ∧ blo ≤ j + 1 - k ∧ (j + 1 - k) + k ≤ bhi
        omega
      · exact hbest

theorem outerLoop_inv (a b : List Char) (alo blo ahi bhi : Nat) :
    ∀ (n i : Nat) (j2len : List (Nat × Nat)) (best : Nat × Nat × Nat),
      alo ≤ i → i + n ≤ ahi →
      j2lenOK alo blo bhi i j2len →
      bestOK alo ahi blo bhi best →
      bestOK alo ahi blo bhi
        (outerLoop a b blo bhi (List.range' i n) j2len best) := by
  intro n
  induction n with
  | zero =>
    intro i j2 best _ _ _ hbest
    simpa [outerLoop] using hbest
  | succ n ih =>
    intro i j2 best hi1 hi2 hj hbest
    have hr : List.range' i (n + 1) = i :: List.range' (i + 1) n := rfl
    rw [hr, outerLoop]
    have hin := innerLoop_inv alo blo ahi bhi i hi1 (by omega) j2 hj
      (seedPositions b blo bhi (a.getD i ' ')) [] best
      (fun j hj' => seedPositions_mem b blo bhi _ j hj')
      (by intro p hp; simp at hp) hbest
    exact ih (i + 1) _ _ (by omega) (by omega) hin.1 hin.2

theorem extendBack_ok (a b : List Char) (alo blo ahi bhi : Nat) :
    ∀ (fuel bi bj k : Nat), alo ≤ bi → blo ≤ bj → bi + k ≤ ahi → bj + k ≤ bhi →
      bestOK alo ahi blo bhi (extendBack a b alo blo fuel bi bj k) := by
  intro fuel
  induction fuel with
  | zero =>
    intro bi bj k h1 h2 h3 h4
    exact ⟨h1, h3, h2, h4⟩
  | succ fuel ih =>
    intro bi bj k h1 h2 h3 h4
    rw [extendBack]
    split
    · rename_i hcond
      exact ih (bi - 1) (bj - 1) (k + 1) (by omega) (by omega) (by omega) (by omega)
    · exact ⟨h1, h3, h2, h4⟩

theorem extendFwd_ok (a b : List Char) (ahi bhi : Nat) :
    ∀ (fuel bi bj k : Nat), bi + k ≤ ahi → bj + k ≤ bhi →
      bi + extendFwd a b ahi bhi fuel bi bj k ≤ ahi ∧
        bj + extendFwd a b ahi bhi fuel bi bj k ≤ bhi := by
  intro fuel
  induction fuel with
  | zero =>
    intro bi bj k h1 h2
    exact ⟨h1, h2⟩
  | succ fuel ih =>
    intro bi bj k h1 h2
    rw [extendFwd]
    split
    · rename_i hcond
      exact ih bi bj (k + 1) (by omega) (by omega)
    · exact ⟨h1, h2⟩

theorem flm_ok (a b : List Char) (alo ahi blo bhi : Nat)
    (h1 : alo ≤ ahi) (h2 : blo ≤ bhi) :
    bestOK alo ahi blo bhi (findLongestMatch a b alo ahi blo bhi) := by
  simp only [findLongestMatch]
  have hout := outerLoop_inv a b alo blo ahi bhi (ahi - alo) alo [] (alo, blo, 0)
    (le_refl alo) (by omega) (by intro p hp; simp at hp)
    ⟨le_refl alo, by simpa using h1, le_refl blo, by simpa using h2⟩
  generalize hB : outerLoop a b blo bhi (List.range' alo (ahi - alo)) []
    (alo, blo, 0) = best0 at hout ⊢
  obtain ⟨o1, o2, o3, o4⟩ := hout
  have hback := extendBack_ok a b alo blo ahi bhi best0.1 best0.1 best0.2.1
    best0.2.2 o1 o3 o2 o4
  generalize hC : extendBack a b alo blo best0.1 best0.1 best0.2.1 best0.2.2
    = back at hback ⊢
  obtain ⟨c1, c2, c3, c4⟩ := hback
  have hfwd := extendFwd_ok a b ahi bhi ahi back.1 back.2.1 back.2.2 c2 c4
  exact ⟨c1, hfwd.1, c3, hfwd.2⟩

theorem matchesTot_le (a b : List Char) :
    ∀ (fuel alo ahi blo bhi : Nat), alo ≤ ahi → blo ≤ bhi →
      matchesTot a b fuel alo ahi blo bhi ≤ ahi - alo ∧
        matchesTot a b fuel alo ahi blo bhi ≤ bhi - blo := by
  intro fuel
  induction fuel with
  | zero =>
    intro alo ahi blo bhi _ _
    simp [matchesTot]
  | succ fuel ih =>
    intro alo ahi blo bhi h1 h2
    obtain ⟨f1, f2, f3, f4⟩ := flm_ok a b alo ahi blo bhi h1 h2
    rw [matchesTot]
    split
    · simp
    · rename_i hk
      have hL := ih alo (findLongestMatch a b alo ahi blo bhi).1 blo
        (findLongestMatch a b alo ahi blo bhi).2.1 f1 f3
      have hR := ih ((findLongestMatch a b alo ahi blo bhi).1
          + (findLongestMatch a b alo ahi blo bhi).2.2) ahi
        ((findLongestMatch a b alo ahi blo bhi).2.1
          + (findLongestMatch a b alo ahi blo bhi).2.2) bhi f2 f4
      exact ⟨by omega, by omega⟩

/-- C6 (amended theorem): the similarity score always lies in `[0, 100]`. -/
theorem calcSim_range (sa sb : String) :
    0 ≤ calcSim sa sb ∧ calcSim sa sb ≤ 100 := by
  simp only [calcSim]
  split
  · norm_num
  · rename_i hne
    have hm := matchesTot_le sa.data sb.data (sa.data.length + 1) 0
      sa.data.length 0 sb.data.length (by omega) (by omega)
    rw [Rat.mkRat_eq_div]
    have hpos : (0 : ℚ) < ((sa.data.length + sb.data.length : Nat) : ℚ) := by
      have : 0 < sa.data.length + sb.data.length := by omega
      exact_mod_cast this
    constructor
    · apply div_nonneg _ (le_of_lt hpos)
      positivity
    · rw [div_le_iff₀ hpos]
      have h200 : 200 * matchesTot sa.data sb.data (sa.data.length + 1) 0
          sa.data.length 0 sb.data.length
          ≤ 100 * (sa.data.length + sb.data.length) := by omega
      exact_mod_cast h200

/-- C6 (counterexample): the similarity scorer is not symmetric.
`SequenceMatcher` greedily keeps the earliest maximal block of the first
argument, which matches differently after swapping:
`similarity("ab", "bacb") = 200/3` but `similarity("bacb", "ab") = 100/3`. -/
theorem similarity_not_symmetric :
    calcSim "ab" "bacb" = mkRat 400 6 ∧ calcSim "bacb" "ab" = mkRat 200 6 ∧
      calcSim "ab" "bacb" ≠ calcSim "bacb" "ab" := by
  decide

/-! ## C4: idempotence of the normalizer -/

theorem basename_id (s : String) (h : ∀ c ∈ s.data, ¬ c = '/') :
    basename s = s := by
  unfold basename
  rw [List.takeWhile_eq_self_iff.mpr
    (fun c hc => by simpa using h c (List.mem_reverse.mp hc))]
  rw [List.reverse_reverse]

theorem rfindIdx_none (ch : Char) (l : List Char) (h : ∀ c ∈ l, ¬ c = ch) :
    rfindIdx ch l = none := by
  unfold rfindIdx
  rw [List.findIdx?_eq_none_iff.mpr
    (fun c hc => by simpa using h c (List.mem_reverse.mp hc))]

theorem splitextIdx_none (l : List Char) (h : ∀ c ∈ l, ¬ c = '.') :
    splitextIdx l = none := by
  simp only [splitextIdx, rfindIdx_none '.' l h]
  cases hsep : rfindIdx '/' l with
  | none => simp
  | some i =>
    dsimp only
    rw [if_neg (by omega)]

theorem splitextRoot_id (s : String) (h : ∀ c ∈ s.data, ¬ c = '.') :
    splitextRoot s = s := by
  unfold splitextRoot
  rw [splitextIdx_none s.data h]

theorem removeDelim_id (op cl : Char) : ∀ (fuel : Nat) (l : List Char),
    (∀ c ∈ l, ¬ c = op) → removeDelim op cl fuel l = l := by
  intro fuel
  induction fuel with
  | zero => intro l _; rfl
  | succ fuel ih =>
    intro l h
    cases l with
    | nil => rfl
    | cons c rest =>
      rw [removeDelim, if_neg (h c (List.mem_cons_self c rest)),
        ih rest (fun c' hc' => h c' (List.mem_cons_of_mem c hc'))]

theorem subWordAux_id (w : List Char) : ∀ (fuel : Nat) (prev : Option Char)
    (l : List Char), containsCI w l = false → subWordAux w fuel prev l = l := by
  intro fuel
  induction fuel with
  | zero => intro prev l _; rfl
  | succ fuel ih =>
    intro prev l h
    cases l with
    | nil => rfl
    | cons c rest =>
      simp only [containsCI, anySuffix, Bool.or_eq_false_iff] at h
      rw [subWordAux, if_neg (by simp [h.1]),
        ih (some c) rest (by simpa [containsCI] using h.2)]

theorem foldSubWord_id (ws : List String) (l : List Char)
    (h : ∀ w ∈ ws, containsCI w.data l = false) :
    ws.foldl (fun s w => subWord w s) l = l := by
  induction ws with
  | nil => rfl
  | cons w ws ih =>
    rw [List.foldl_cons]
    have hw : subWord w l = l := by
      unfold subWord
      split
      · rfl
      · exact subWordAux_id w.data (l.length + 1) none l
          (h w (List.mem_cons_self w ws))
    rw [hw]
    exact ih (fun w' hw' => h w' (List.mem_cons_of_mem w hw'))

theorem parenYearAux_id : ∀ (fuel cnt : Nat) (l : List Char),
    (∀ c ∈ l, ¬ c = '(') → parenYearAux fuel cnt l = (l, []) := by
  intro fuel
  induction fuel with
  | zero => intro cnt l _; rfl
  | succ fuel ih =>
    intro cnt l h
    cases l with
    | nil => rfl
    | cons c rest =>
      simp only [parenYearAux, if_neg (h c (List.mem_cons_self c rest)),
        ih cnt rest (fun c' hc' => h c' (List.mem_cons_of_mem c hc'))]

theorem removeBareYears_id : ∀ (fuel : Nat) (prev : Option Char) (l : List Char),
    (∀ c ∈ l, c.isDigit = false) → removeBareYears fuel prev l = l := by
  intro fuel
  induction fuel with
  | zero => intro prev l _; rfl
  | succ fuel ih =>
    intro prev l h
    cases l with
    | nil => rfl
    | cons c rest =>
      rw [removeBareYears]
      split
      · rename_i a b2 c2 d rest2 heq
        have hc : a.isDigit = false := by
          have : a ∈ c :: rest := by rw [heq]; exact List.mem_cons_self a _
          exact h a this
        rw [if_neg (by simp [isYear4, hc])]
        have hmem : ∀ c' ∈ b2 :: c2 :: d :: rest2, c'.isDigit = false := by
          intro c' hc'
          have : c' ∈ c :: rest := by rw [heq]; exact List.mem_cons_of_mem a hc'
          exact h c' this
        rw [ih (some a) (b2 :: c2 :: d :: rest2) hmem]
        exact heq.symm
      · rw [ih (some c) rest
          (fun c' hc' => h c' (List.mem_cons_of_mem c hc'))]

theorem tryParenYearPat_none (l : List Char) (h : ∀ c ∈ l, ¬ c = '(') :
    tryParenYearPat l = none := by
  unfold tryParenYearPat
  cases hd : l.dropWhile isSpaceChar with
  | nil => rfl
  | cons c' r' =>
    have hc' : ¬ c' = '(' := by
      apply h
      exact (List.dropWhile_sublist isSpaceChar).subset
        (hd ▸ List.mem_cons_self c' r')
    split
    · rename_i a b2 c2 d r heq
      exact absurd (List.head_eq_of_cons_eq heq) (by simpa using hc')
    · rfl

theorem removeParenYears_id : ∀ (fuel : Nat) (l : List Char),
    (∀ c ∈ l, ¬ c = '(') → removeParenYears fuel l = l := by
  intro fuel
  induction fuel with
  | zero => intro l _; rfl
  | succ fuel ih =>
    intro l h
    cases l with
    | nil => rfl
    | cons c rest =>
      rw [removeParenYears, tryParenYearPat_none (c :: rest) h,
        ih rest (fun c' hc' => h c' (List.mem_cons_of_mem c hc'))]

theorem dotsToSpaces_id (l : List Char) (h : ∀ c ∈ l, ¬ c = '.') :
    dotsToSpaces l = l := by
  induction l with
  | nil => rfl
  | cons c rest ih =>
    simp only [dotsToSpaces, List.map_cons,
      if_neg (h c (List.mem_cons_self c rest))]
    have := ih (fun c' hc' => h c' (List.mem_cons_of_mem c hc'))
    simp only [dotsToSpaces] at this
    rw [this]

/-- C4 (amended theorem): already-normalized strings that contain no path
separator, dot, bracket, parenthesis or digit, whose whitespace is already
stripped and collapsed, and that contain no noise-word occurrence, are
exact fixed points of the normalizer.  (Idempotence fails in general:
when a pass falls back to the raw basename, dots survive and a second
pass splits a fake extension off them — see the counterexample.) -/
theorem normalize_fixedPoint (ws : List String) (s : String)
    (hplain : ∀ c ∈ s.data, plainChar c = true)
    (hstrip : pyStrip s.data = s.data)
    (hcollapse : collapseWs s.data = s.data)
    (hwords : ∀ w ∈ ws, containsCI w.data s.data = false) :
    extractBasename ws s = s := by
  have hall : ∀ c ∈ s.data,
      ¬ c = '/' ∧ ¬ c = '.' ∧ ¬ c = '[' ∧ ¬ c = '(' ∧ c.isDigit = false := by
    intro c hc
    have hx := hplain c hc
    simp only [plainChar, Bool.not_eq_true', Bool.or_eq_false_iff,
      decide_eq_false_iff_not] at hx
    exact ⟨hx.1.1.1.1.1.1, hx.1.1.1.1.1.2, hx.1.1.1.1.2, hx.1.1.2, hx.2⟩
  have hsep : ∀ c ∈ s.data, ¬ c = '/' := fun c hc => (hall c hc).1
  have hdot : ∀ c ∈ s.data, ¬ c = '.' := fun c hc => (hall c hc).2.1
  have hbr : ∀ c ∈ s.data, ¬ c = '[' := fun c hc => (hall c hc).2.2.1
  have hpar : ∀ c ∈ s.data, ¬ c = '(' := fun c hc => (hall c hc).2.2.2.1
  have hdig : ∀ c ∈ s.data, c.isDigit = false := fun c hc => (hall c hc).2.2.2.2
  simp only [extractBasename]
  rw [basename_id s hsep, splitextRoot_id s hdot]
  rw [removeDelim_id '[' ']' (s.data.length + 1) s.data hbr]
  rw [foldSubWord_id ws s.data hwords]
  rw [parenYearAux_id (s.data.length + 1) 0 s.data hpar]
  rw [removeDelim_id '(' ')' (s.data.length + 1) s.data hpar]
  rw [removeBareYears_id (s.data.length + 1) none s.data hdig, hstrip]
  rw [List.foldl_nil]
  rw [removeParenYears_id (s.data.length + 1) s.data hpar, hstrip]
  rw [dotsToSpaces_id s.data hdot, hstrip, hcollapse, hstrip]
  split
  · rfl
  · rfl

/-- C4 (counterexample): normalization is not idempotent.  With noise word
`1080p`, normalizing `"2019.1080p.mkv"` falls back to the raw basename
`"2019.1080p"`; normalizing that output again splits `".1080p"` off as a
fake extension and removes the year, giving `"2019"`. -/
theorem normalize_not_idempotent :
    extractBasename ["1080p"] (extractBasename ["1080p"] "2019.1080p.mkv")
      ≠ extractBasename ["1080p"] "2019.1080p.mkv" := by
  decide

/-- Witness for `normalize_fixedPoint` at concrete inputs. -/
theorem normalize_fixedPoint_witness :
    extractBasename ["1080p", "bluray", "x264"] "Movie Name" = "Movie Name" :=
  normalize_fixedPoint ["1080p", "bluray", "x264"] "Movie Name" (by decide)
    (by decide) (by decide) (by decide)

/-! ## C7, C8, C10: the rename executor -/

theorem fsMatch_self (ci : Bool) (p : String) : fsMatch ci p p = true := by
  unfold fsMatch
  split <;> simp

theorem mem_fsMove (ci : Bool) (fs : List String) (src dst p : String) :
    p ∈ fsMove ci fs src dst ↔
      p = dst ∨ (p ∈ fs ∧ fsMatch ci src p = false ∧ fsMatch ci dst p = false) := by
  simp only [fsMove, fsRemove, List.mem_cons, List.mem_filter,
    Bool.not_eq_true']
  tauto

theorem lowerStr_data (s : String) : (lowerStr s).data = s.data.map lowChar := rfl

theorem lowerStr_len_eq (x y : String) (h : lowerStr x = lowerStr y) :
    x.data.length = y.data.length := by
  have := congrArg (fun z => z.data.length) h
  simpa [lowerStr_data] using this

theorem lowne_append (x y suf : String) (hsuf : suf.data ≠ [])
    (hlow : lowerStr x = lowerStr y) : ¬ lowerStr x = lowerStr (y ++ suf) := by
  intro he
  have h1 := lowerStr_len_eq x y hlow
  have h2 := lowerStr_len_eq x (y ++ suf) he
  rw [String.data_append, List.length_append] at h2
  have : suf.data.length = 0 := by omega
  exact hsuf (List.length_eq_zero.mp this)

theorem fsExists_move_dst (ci : Bool) (fs : List String) (src dst : String) :
    fsExists ci (fsMove ci fs src dst) dst = true := by
  simp [fsExists, fsMove, fsMatch_self]

theorem fsExists_move_src (ci : Bool) (fs : List String) (src dst : String)
    (hsd : fsMatch ci src dst = false) :
    fsExists ci (fsMove ci fs src dst) src = false := by
  simp only [fsExists, fsMove, fsRemove, List.any_cons, Bool.or_eq_false_iff]
  refine ⟨hsd, ?_⟩
  rw [List.any_eq_false]
  intro x hx
  have := (List.mem_filter.mp (List.mem_filter.mp hx).1).2
  simp only [Bool.not_eq_true'] at this
  simp [this]

theorem caseHandler_log (ci : Bool) (fault : FaultSite → Bool)
    (temp fp : String) (s : RState) :
    ((caseHandler ci fault temp fp s).2).log = s.log ∧
      (caseHandler ci fault temp fp s).1 ≠ RenResult.renamed := by
  unfold caseHandler
  split_ifs <;> simp

theorem caseStep2_out (ci : Bool) (fault : FaultSite → Bool)
    (temp newPath now fp : String) (s : RState) :
    ((caseStep2 ci fault temp newPath now fp s).1 = RenResult.renamed ∧
        ((caseStep2 ci fault temp newPath now fp s).2).log
          = s.log ++ [logEntry now fp newPath]) ∨
      ((caseStep2 ci fault temp newPath now fp s).1 ≠ RenResult.renamed ∧
        ((caseStep2 ci fault temp newPath now fp s).2).log = s.log) := by
  obtain ⟨hlog, hne⟩ := caseHandler_log ci fault temp fp s
  by_cases hf : fault FaultSite.rename2 = true
  · refine Or.inr ⟨?_, ?_⟩
    · simpa [caseStep2, hf] using hne
    · simpa [caseStep2, hf] using hlog
  · refine Or.inl ⟨?_, ?_⟩ <;> simp [caseStep2, hf]

theorem caseStep1_out (ci : Bool) (fault : FaultSite → Bool)
    (temp newPath now fp : String) (s : RState) :
    ((caseStep1 ci fault temp newPath now fp s).1 = RenResult.renamed ∧
        ((caseStep1 ci fault temp newPath now fp s).2).log
          = s.log ++ [logEntry now fp newPath]) ∨
      ((caseStep1 ci fault temp newPath now fp s).1 ≠ RenResult.renamed ∧
        ((caseStep1 ci fault temp newPath now fp s).2).log = s.log) := by
  obtain ⟨hlog, hne⟩ := caseHandler_log ci fault temp fp s
  by_cases hf : fault FaultSite.rename1 = true
  · refine Or.inr ⟨?_, ?_⟩
    · simpa [caseStep1, hf] using hne
    · simpa [caseStep1, hf] using hlog
  · rcases caseStep2_out ci fault temp newPath now fp
        { s with fs := fsMove ci s.fs fp temp } with ⟨h1, h2⟩ | ⟨h1, h2⟩
    · refine Or.inl ⟨?_, ?_⟩
      · simpa [caseStep1, hf] using h1
      · simpa [caseStep1, hf] using h2
    · refine Or.inr ⟨?_, ?_⟩
      · simpa [caseStep1, hf] using h1
      · simpa [caseStep1, hf] using h2

theorem caseOnlyRename_out (ci : Bool) (fault : FaultSite → Bool)
    (now fp newPath : String) (st : RState) :
    ((caseOnlyRename ci fault now fp newPath st).1 = RenResult.renamed ∧
        ((caseOnlyRename ci fault now fp newPath st).2).log
          = st.log ++ [logEntry now fp newPath]) ∨
      ((caseOnlyRename ci fault now fp newPath st).1 ≠ RenResult.renamed ∧
        ((caseOnlyRename ci fault now fp newPath st).2).log = st.log) := by
  by_cases h1 : fsExists ci st.fs (newPath ++ ".renaming_temp") = true
  · by_cases h2 : fault FaultSite.removeTemp = true
    · obtain ⟨hlog, hne⟩ :=
        caseHandler_log ci fault (newPath ++ ".renaming_temp") fp st
      refine Or.inr ⟨?_, ?_⟩
      · simpa [caseOnlyRename, h1, h2] using hne
      · simpa [caseOnlyRename, h1, h2] using hlog
    · rcases caseStep1_out ci fault (newPath ++ ".renaming_temp") newPath now fp
          { st with fs := fsRemove ci st.fs (newPath ++ ".renaming_temp") }
          with ⟨ha, hb⟩ | ⟨ha, hb⟩
      · refine Or.inl ⟨?_, ?_⟩
        · simpa [caseOnlyRename, h1, h2] using ha
        · simpa [caseOnlyRename, h1, h2] using hb
      · refine Or.inr ⟨?_, ?_⟩
        · simpa [caseOnlyRename, h1, h2] using ha
        · simpa [caseOnlyRename, h1, h2] using hb
  · rcases caseStep1_out ci fault (newPath ++ ".renaming_temp") newPath now fp st
        with ⟨ha, hb⟩ | ⟨ha, hb⟩
    · refine Or.inl ⟨?_, ?_⟩
      · simpa [caseOnlyRename, h1] using ha
      · simpa [caseOnlyRename, h1] using hb
    · refine Or.inr ⟨?_, ?_⟩
      · simpa [caseOnlyRename, h1] using ha
      · simpa [caseOnlyRename, h1] using hb

theorem replacePath_out (ci : Bool) (fault : FaultSite → Bool)
    (now fp newPath : String) (st : RState) :
    ((replacePath ci fault now fp newPath st).1 = RenResult.renamed ∧
        ((replacePath ci fault now fp newPath st).2).log
          = st.log ++ [logEntry now fp newPath]) ∨
      ((replacePath ci fault now fp newPath st).1 ≠ RenResult.renamed ∧
        ((replacePath ci fault now fp newPath st).2).log = st.log) := by
  by_cases hf : fault FaultSite.replace = true
  · refine Or.inr ⟨?_, ?_⟩ <;> simp [replacePath, hf]
  · refine Or.inl ⟨?_, ?_⟩ <;> simp [replacePath, hf]

set_option linter.unusedTactic false in
/-- C7 (amended theorem): over every execution path of the rename executor
(any fault pattern, any filesystem state, any prompt answer), the final
audit log is the original log with exactly one formatted line (timestamp,
old path, new path) appended when the call reports a successful rename,
and nothing appended otherwise: prior entries are never modified or
deleted, and failed or declined attempts leave the log untouched. -/
theorem renameLog_appendOnly (ci : Bool) (fault : FaultSite → Bool)
    (answer : Char) (now fp nn : String) (st : RState) :
    ((renameFile ci fault answer now fp nn st).2).log
      = st.log ++
        (if (renameFile ci fault answer now fp nn st).1 = RenResult.renamed
          then [logEntry now fp (renameTarget fp nn)] else []) := by
  simp only [renameFile]
  split_ifs with h1 h2 h3 h4
  all_goals try (simp_all; done)
  all_goals
    first
      | ((rcases caseOnlyRename_out ci fault now fp (renameTarget fp nn) st
          with ⟨ha, hb⟩ | ⟨ha, hb⟩ <;> simp_all); done)
      | ((rcases replacePath_out ci fault now fp (renameTarget fp nn) st
          with ⟨ha, hb⟩ | ⟨ha, hb⟩ <;> simp_all); done)

/-- C7 (counterexample): a rename attempt that fails (the final
`os.replace` raises) returns `False` and appends nothing to the audit
log, refuting "every rename attempt, whether it succeeds or fails,
produces exactly one appended line". -/
theorem renameLog_failure_cex :
    renameFile false (fun site => decide (site = FaultSite.replace)) 's'
        "t0" "a.mkv" "B" ⟨["a.mkv"], []⟩
      = (RenResult.notRenamed, ⟨["a.mkv"], []⟩) := by
  decide

theorem fp_not_in_two_move (ci : Bool) (fs1 : List String) (fp temp np : String)
    (hne : fp ≠ np) (hfptemp : fp ≠ temp) :
    fp ∉ fsMove ci (fsMove ci fs1 fp temp) temp np := by
  intro h
  rw [mem_fsMove] at h
  rcases h with rfl | ⟨hin, -, -⟩
  · exact hne rfl
  · rw [mem_fsMove] at hin
    rcases hin with rfl | ⟨-, hm, -⟩
    · exact hfptemp rfl
    · rw [fsMatch_self] at hm
      cases hm

/-- C8: on a case-insensitive filesystem, when the source file exists and
the proposed target differs from it only by letter case, the fault-free
run performs the two-step rename through the temporary name and reports a
successful rename — never the already-correct early return and never a
failure: afterwards the target spelling is on disk, the old spelling is
gone, and exactly one audit line is appended.  Moreover, if the second
step of the two-step rename raises, the executor restores the original
name before reporting failure: the old spelling is back on disk and the
log is untouched. -/
theorem caseOnly_rename (answer : Char) (now fp nn : String) (st : RState)
    (hmem : fp ∈ st.fs)
    (hlow : lowerStr fp = lowerStr (renameTarget fp nn))
    (hne : fp ≠ renameTarget fp nn) :
    ((renameFile true (fun _ => false) answer now fp nn st).1
        = RenResult.renamed ∧
      renameTarget fp nn
        ∈ ((renameFile true (fun _ => false) answer now fp nn st).2).fs ∧
      fp ∉ ((renameFile true (fun _ => false) answer now fp nn st).2).fs ∧
      ((renameFile true (fun _ => false) answer now fp nn st).2).log
        = st.log ++ [logEntry now fp (renameTarget fp nn)]) ∧
    ((renameFile true (fun site => decide (site = FaultSite.rename2)) answer
          now fp nn st).1 = RenResult.notRenamed ∧
      fp ∈ ((renameFile true (fun site => decide (site = FaultSite.rename2))
          answer now fp nn st).2).fs ∧
      ((renameFile true (fun site => decide (site = FaultSite.rename2)) answer
          now fp nn st).2).log = st.log) := by
  have hsuf : (".renaming_temp" : String).data ≠ [] := by decide
  have hlowtemp : ¬ lowerStr fp
      = lowerStr (renameTarget fp nn ++ ".renaming_temp") :=
    lowne_append fp (renameTarget fp nn) ".renaming_temp" hsuf hlow
  have hfptemp : fp ≠ renameTarget fp nn ++ ".renaming_temp" := by
    intro he
    exact hlowtemp (by rw [← he])
  have hmatchft : fsMatch true fp (renameTarget fp nn ++ ".renaming_temp")
      = false := by
    simp only [fsMatch, if_true, decide_eq_false_iff_not]
    exact hlowtemp
  have hex : fsExists true st.fs (renameTarget fp nn) = true := by
    simp only [fsExists, List.any_eq_true]
    exact ⟨fp, hmem, by simp [fsMatch, hlow]⟩
  constructor
  · -- fault-free run
    have hcomp : ∃ fs1, renameFile true (fun _ => false) answer now fp nn st
        = (RenResult.renamed,
            ⟨fsMove true
                (fsMove true fs1 fp (renameTarget fp nn ++ ".renaming_temp"))
                (renameTarget fp nn ++ ".renaming_temp") (renameTarget fp nn),
              st.log ++ [logEntry now fp (renameTarget fp nn)]⟩) := by
      by_cases htemp : fsExists true st.fs
          (renameTarget fp nn ++ ".renaming_temp") = true
      · refine ⟨fsRemove true st.fs (renameTarget fp nn ++ ".renaming_temp"), ?_⟩
        simp [renameFile, if_neg hne, if_pos hex, if_pos (And.intro hlow hne),
          caseOnlyRename, htemp, caseStep1, caseStep2]
      · refine ⟨st.fs, ?_⟩
        simp [renameFile, if_neg hne, if_pos hex, if_pos (And.intro hlow hne),
          caseOnlyRename, htemp, caseStep1, caseStep2]
    obtain ⟨fs1, hcomp⟩ := hcomp
    rw [hcomp]
    exact ⟨rfl, (mem_fsMove _ _ _ _ _).mpr (Or.inl rfl),
      fp_not_in_two_move true fs1 fp _ _ hne hfptemp, rfl⟩
  · -- fault at the second rename step: restored
    have hcomp : ∃ fs1,
        renameFile true (fun site => decide (site = FaultSite.rename2)) answer
            now fp nn st
          = (RenResult.notRenamed,
              ⟨fsMove true
                  (fsMove true fs1 fp (renameTarget fp nn ++ ".renaming_temp"))
                  (renameTarget fp nn ++ ".renaming_temp") fp,
                st.log⟩) := by
      by_cases htemp : fsExists true st.fs
          (renameTarget fp nn ++ ".renaming_temp") = true
      · refine ⟨fsRemove true st.fs (renameTarget fp nn ++ ".renaming_temp"), ?_⟩
        simp [renameFile, if_neg hne, if_pos hex, if_pos (And.intro hlow hne),
          caseOnlyRename, htemp, caseStep1, caseStep2, caseHandler,
          fsExists_move_dst,
          fsExists_move_src true
            (fsRemove true st.fs (renameTarget fp nn ++ ".renaming_temp")) fp
            (renameTarget fp nn ++ ".renaming_temp") hmatchft]
      · refine ⟨st.fs, ?_⟩
        simp [renameFile, if_neg hne, if_pos hex, if_pos (And.intro hlow hne),
          caseOnlyRename, htemp, caseStep1, caseStep2, caseHandler,
          fsExists_move_dst,
          fsExists_move_src true st.fs fp
            (renameTarget fp nn ++ ".renaming_temp") hmatchft]
    obtain ⟨fs1, hcomp⟩ := hcomp
    rw [hcomp]
    exact ⟨rfl, (mem_fsMove _ _ _ _ _).mpr (Or.inl rfl), rfl⟩

/-- Witness for `caseOnly_rename` at concrete inputs. -/
theorem caseOnly_rename_witness :
    ((renameFile true (fun _ => false) 's' "t0" "movie.mkv" "Movie"
          ⟨["movie.mkv"], []⟩).1 = RenResult.renamed ∧
      renameTarget "movie.mkv" "Movie"
        ∈ ((renameFile true (fun _ => false) 's' "t0" "movie.mkv" "Movie"
            ⟨["movie.mkv"], []⟩).2).fs ∧
      "movie.mkv" ∉ ((renameFile true (fun _ => false) 's' "t0" "movie.mkv"
          "Movie" ⟨["movie.mkv"], []⟩).2).fs ∧
      ((renameFile true (fun _ => false) 's' "t0" "movie.mkv" "Movie"
          ⟨["movie.mkv"], []⟩).2).log
        = ([] : List String)
            ++ [logEntry "t0" "movie.mkv" (renameTarget "movie.mkv" "Movie")]) ∧
    ((renameFile true (fun site => decide (site = FaultSite.rename2)) 's' "t0"
          "movie.mkv" "Movie" ⟨["movie.mkv"], []⟩).1 = RenResult.notRenamed ∧
      "movie.mkv" ∈ ((renameFile true
          (fun site => decide (site = FaultSite.rename2)) 's' "t0" "movie.mkv"
          "Movie" ⟨["movie.mkv"], []⟩).2).fs ∧
      ((renameFile true (fun site => decide (site = FaultSite.rename2)) 's'
          "t0" "movie.mkv" "Movie" ⟨["movie.mkv"], []⟩).2).log
        = ([] : List String)) :=
  caseOnly_rename 's' "t0" "movie.mkv" "Movie" ⟨["movie.mkv"], []⟩ (by decide)
    (by decide) (by decide)

/-- C10: when the destination exists and is genuinely different from the
source (not merely a case variant) and the user declines the overwrite
prompt, the executor performs no filesystem mutation and writes no audit
entry: the returned state is exactly the input state. -/
theorem declineOverwrite_noop (ci : Bool) (fault : FaultSite → Bool)
    (now fp nn : String) (st : RState)
    (hex : fsExists ci st.fs (renameTarget fp nn) = true)
    (hlow : ¬ lowerStr fp = lowerStr (renameTarget fp nn)) :
    renameFile ci fault 'n' now fp nn st = (RenResult.notRenamed, st) := by
  have hne : fp ≠ renameTarget fp nn := by
    intro he
    exact hlow (by rw [← he])
  have hcc : ¬ (lowerStr fp = lowerStr (renameTarget fp nn)
      ∧ fp ≠ renameTarget fp nn) := fun hc => hlow hc.1
  simp [renameFile, if_neg hne, if_pos hex, if_neg hcc]

/-- Witness for `declineOverwrite_noop` at concrete inputs. -/
theorem declineOverwrite_noop_witness :
    renameFile false (fun _ => false) 'n' "t0" "a.mkv" "B"
        ⟨["a.mkv", "B.mkv"], []⟩
      = (RenResult.notRenamed, ⟨["a.mkv", "B.mkv"], []⟩) :=
  declineOverwrite_noop false (fun _ => false) "t0" "a.mkv" "B"
    ⟨["a.mkv", "B.mkv"], []⟩ (by decide) (by decide)

end PlexTools
